import Mathlib

/-!
Verification of the palette social-media-monitoring backend.

The development shallowly embeds the pure algorithmic cores of the
repository:

* the Instagram comment token-stream parser
  (src/routers/instagram.py, parse_comments_array and its
  classification helpers);
* the Facebook per-comment post-processing
  (src/routers/facebook.py, scrape_comments_for_url, lines 630-653);
* the Facebook link normalizer (_normalize_fb_href) and the frontier
  discovery loop (scroll_and_extract);
* the four profile merge helpers
  (src/helpers/mongo_helper.py: upsert_youtube_profile,
  upsert_facebook_profile, upsert_twitter_profile,
  upsert_instagram_profile), restricted to their pure merge logic
  (the part between the find_one read and the update_one write).

Python strings are modelled as Lean Strings; Python dicts as
association lists with Python dict semantics (first-key lookup,
in-place update).  Python str.strip / str.lower are modelled on the
ASCII character set actually exercised by the code (the regexes in the
source are ASCII character classes).
-/

namespace Palette

/-! ## Python string primitives -/

/-- Python's `\s` / `str.strip` whitespace, restricted to the ASCII
whitespace characters (space, tab, CR, LF) that occur in scraped
tokens. -/
def pyIsSpace (c : Char) : Bool := c = ' ' || c = '\t' || c = '\r' || c = '\n'

/-- Strip leading and trailing whitespace from a character list. -/
def stripChars (l : List Char) : List Char :=
  ((l.dropWhile pyIsSpace).reverse.dropWhile pyIsSpace).reverse

/-- Python `str.strip()`. -/
def pyStrip (s : String) : String := String.mk (stripChars s.data)

/-- Python `str.lower()` (ASCII case folding). -/
def pyLower (s : String) : String := String.mk (s.data.map Char.toLower)

/-- Does `pat` lead (begin) the list `l`?  (Python `str.startswith`.) -/
def leadEq : List Char → List Char → Bool
  | [], _ => true
  | _ :: _, [] => false
  | a :: as, b :: bs => a = b && leadEq as bs

/-- Does `pat` occur as a contiguous run inside `l`?  (Python `in`.) -/
def hasSubList (pat : List Char) : List Char → Bool
  | [] => leadEq pat []
  | l@(_ :: t) => leadEq pat l || hasSubList pat t

/-- Python `pat in hay` on strings. -/
def strHasSub (hay pat : String) : Bool := hasSubList pat.data hay.data

/-- Python `hay.startswith(pat)`. -/
def strLeads (hay pat : String) : Bool := leadEq pat.data hay.data

/-- Python `' '.join(p.strip() for p in parts).strip()`. -/
def joinStripped (parts : List String) : String :=
  pyStrip (String.intercalate " " (parts.map pyStrip))

/-! ## Token classification (src/routers/instagram.py lines 115-150) -/

/-- A character of the class `[A-Za-z0-9_.@-]` from USERNAME_RE. -/
def usernameChar (c : Char) : Bool :=
  c.isAlpha || c.isDigit || c = '_' || c = '.' || c = '@' || c = '-'

/-- `is_username_token`: stripped, single-line, no space, and a full
match of `^[A-Za-z0-9_.@-]{2,50}$`. -/
def is_username_token (s : String) : Bool :=
  let t := pyStrip s
  t ≠ "" && !t.data.contains '\n' && !t.data.contains ' ' &&
    decide (2 ≤ t.data.length) && decide (t.data.length ≤ 50) &&
    t.data.all usernameChar

/-- One of the unit letters `[wdhm]` of TIME_RE, case-insensitively. -/
def isTimeUnit (c : Char) : Bool :=
  c.toLower = 'w' || c.toLower = 'd' || c.toLower = 'h' || c.toLower = 'm'

/-- Does `\d+\s*[wdhm]` (the first, subsuming alternative of TIME_RE)
match at the head of `l`? -/
def timeLead (l : List Char) : Bool :=
  let ds := l.takeWhile Char.isDigit
  let rest := (l.dropWhile Char.isDigit).dropWhile pyIsSpace
  ds ≠ [] && (match rest with | c :: _ => isTimeUnit c | [] => false)

/-- `is_time_token`: TIME_RE (anchored at `^`) searched against the
stripped token. -/
def is_time_token (s : String) : Bool :=
  s ≠ "" && timeLead (pyStrip s).data

/-- Full-string match of LIKES_RE `^(\d+\s*likes?|\d+\s*like)$`
(case-insensitive). -/
def likesFull (l : List Char) : Bool :=
  let ds := l.takeWhile Char.isDigit
  let rest := (l.dropWhile Char.isDigit).dropWhile pyIsSpace
  ds ≠ [] &&
    (match rest.map Char.toLower with
     | ['l', 'i', 'k', 'e'] => true
     | ['l', 'i', 'k', 'e', 's'] => true
     | _ => false)

/-- `is_likes_token`: LIKES_RE match on the stripped token, or the
substring "like" together with some digit. -/
def is_likes_token (s : String) : Bool :=
  s ≠ "" &&
    (likesFull (pyStrip s).data ||
      (strHasSub (pyLower (pyStrip s)) "like" && (pyStrip s).data.any Char.isDigit))

/-- The fixed UI chrome strings of UI_TOKENS. -/
def uiTokens : List String :=
  ["reply", "see translation", "view replies", "view all", "load more",
   "reply\nsee translation"]

/-- `is_ui_token`: lowercased stripped token is a chrome string, or
starts with "view replies" / "see translation". -/
def is_ui_token (s : String) : Bool :=
  s ≠ "" &&
    (let t := pyLower (pyStrip s)
     uiTokens.contains t || strLeads t "view replies" || strLeads t "see translation")

/-! ## extract_time_and_likes (src/routers/instagram.py lines 152-181) -/

/-- Match `\d+\s*likes?` at the head of `l`, returning the matched
characters. -/
def likesAt (l : List Char) : Option (List Char) :=
  let ds := l.takeWhile Char.isDigit
  if ds = [] then none else
  let r := (l.drop ds.length)
  let ws := r.takeWhile pyIsSpace
  match r.drop ws.length with
  | a :: b :: c :: d :: rest =>
    if [a, b, c, d].map Char.toLower = ['l', 'i', 'k', 'e'] then
      match rest with
      | e :: _ =>
        if e.toLower = 's' then some (ds ++ ws ++ [a, b, c, d, e])
        else some (ds ++ ws ++ [a, b, c, d])
      | [] => some (ds ++ ws ++ [a, b, c, d])
    else none
  | _ => none

/-- `re.search(r'(\d+\s*likes?)', s)`: leftmost match anywhere. -/
def likesSearch : List Char → String
  | [] => ""
  | l@(_ :: t) =>
    match likesAt l with
    | some m => String.mk m
    | none => likesSearch t

/-- Match the alternation `\d+\s*w\d*|\d+\s*w|\d+\s*d|\d+\s*h|\d+\s*m`
at the head of `l` (case-insensitive), returning the matched
characters. -/
def timeAt (l : List Char) : Option (List Char) :=
  let ds := l.takeWhile Char.isDigit
  if ds = [] then none else
  let r := (l.drop ds.length)
  let ws := r.takeWhile pyIsSpace
  match r.drop ws.length with
  | c :: rest =>
    if c.toLower = 'w' then some (ds ++ ws ++ c :: rest.takeWhile Char.isDigit)
    else if c.toLower = 'd' || c.toLower = 'h' || c.toLower = 'm' then
      some (ds ++ ws ++ [c])
    else none
  | [] => none

/-- `re.search` of the time alternation: leftmost match anywhere. -/
def timeSearch : List Char → String
  | [] => ""
  | l@(_ :: t) =>
    match timeAt l with
    | some m => String.mk m
    | none => timeSearch t

/-- The normalization applied to a found time token: `4w14` collapses
to `4w` (the `mw` regex), otherwise `^\s*(\d+)\s*([wdhm])` rebuilds a
compact `Nu` form. -/
def normalizePosted (p : String) : String :=
  let l1 := p.data.dropWhile pyIsSpace
  let ds := l1.takeWhile Char.isDigit
  let r := ((l1.drop ds.length).dropWhile pyIsSpace)
  if ds ≠ [] then
    match r with
    | c :: rest =>
      if c.toLower = 'w' then
        let ds2 := rest.takeWhile Char.isDigit
        let tl := (rest.drop ds2.length).dropWhile pyIsSpace
        if ds2 ≠ [] && tl = [] then String.mk (ds ++ ['w'])
        else String.mk (ds ++ [c.toLower])
      else if isTimeUnit c then String.mk (ds ++ [c.toLower])
      else p
    | [] => p
  else p

/-- The final fallback `re.match(r'^(\d+\s*w)', s)` of
extract_time_and_likes. -/
def weekLead (l : List Char) : String :=
  let ds := l.takeWhile Char.isDigit
  if ds = [] then "" else
  let r := (l.drop ds.length)
  let ws := r.takeWhile pyIsSpace
  match r.drop ws.length with
  | c :: _ => if c.toLower = 'w' then String.mk (ds ++ ws ++ [c]) else ""
  | [] => ""

/-- `extract_time_and_likes`: returns (posted_before, likes). -/
def extract_time_and_likes (s : String) : String × String :=
  if s = "" then ("", "") else
  let t := pyStrip s
  let likes := likesSearch t.data
  let posted := timeSearch t.data
  let posted := if posted ≠ "" then normalizePosted posted else posted
  let posted := if posted = "" then weekLead t.data else posted
  (posted, likes)

/-! ## The token-stream parser (parse_comments_array, lines 183-347)

A parsed comment record.  The source emits dicts
`{'username', 'text', 'posted_before', 'likes', 'reply': []}`; the
`reply` field is the constant empty list in every emission of
parse_comments_array and is omitted from the record. -/

structure IgComment where
  username : String
  text : String
  posted_before : String
  likes : String
deriving DecidableEq, Repr

/-- Replace the last element of a list (Python `out[-1] = ...` on a
non-empty list; identity on the empty list, matching the `if out:`
guards of the source). -/
def updateLast : List IgComment → (IgComment → IgComment) → List IgComment
  | [], _ => []
  | [c], f => [f c]
  | c :: c' :: rest, f => c :: updateLast (c' :: rest) f

/-- The caption-block inner loop (lines 210-229): consume tokens,
capturing the first time token as posted_before, skipping UI tokens and
likes tokens, collecting everything else as caption parts, until a
username token is seen after the time token.  Returns
(parts, posted_before, unconsumed rest). -/
def captionScan : List String → Bool → String → List String →
    (List String × String × List String)
  | [], _, posted, parts => (parts.reverse, posted, [])
  | cur :: rest, timeFound, posted, parts =>
    if is_time_token cur && !timeFound then
      captionScan rest true (extract_time_and_likes cur).1 parts
    else if is_username_token cur && timeFound then
      (parts.reverse, posted, cur :: rest)
    else if is_ui_token cur then
      captionScan rest timeFound posted parts
    else
      captionScan rest timeFound posted
        (if is_likes_token cur then parts else cur :: parts)

/-- The free-text collection loop (lines 250-254 and 284-288): consume
tokens until a time, username, UI, or likes token.  Returns
(parts, unconsumed rest). -/
def textScan : List String → (List String × List String)
  | [] => ([], [])
  | cur :: rest =>
    if is_time_token cur || is_username_token cur || is_ui_token cur ||
        is_likes_token cur then
      ([], cur :: rest)
    else
      let r := textScan rest
      (cur :: r.1, r.2)

/-- The after-time text loop of the single-username branch
(lines 298-305): consume free text, and consume a likes token (setting
likes if still empty) before stopping.  Returns
(parts, likes, unconsumed rest). -/
def afterTimeScan : List String → String → (List String × String × List String)
  | [], likes => ([], likes, [])
  | cur :: rest, likes =>
    if is_username_token cur || is_time_token cur || is_ui_token cur then
      ([], likes, cur :: rest)
    else if is_likes_token cur then
      ([], (if likes = "" then pyStrip cur else likes), rest)
    else
      let r := afterTimeScan rest likes
      (cur :: r.1, r.2.1, r.2.2)

/-- Caption block (lines 199-243): u is the consumed caption username,
l the remaining tokens.  Returns the caption record (if non-empty) and
the unconsumed rest. -/
def captionBranch (u : String) (l : List String) :
    Option IgComment × List String :=
  let res := captionScan l false "" []
  let ctext := joinStripped res.1
  (if ctext ≠ "" || res.2.1 ≠ "" then some ⟨u, ctext, res.2.1, ""⟩ else none,
   res.2.2)

/-- The optional trailing time token of the repeated-username branch
(lines 258-262): returns (posted_before, likes, rest). -/
def optTime (l : List String) : String × String × List String :=
  match l with
  | tk :: r =>
    if is_time_token tk then
      let ex := extract_time_and_likes tk
      (ex.1, (if ex.2 ≠ "" then ex.2 else ""), r)
    else ("", "", l)
  | [] => ("", "", [])

/-- The unconditional trailing likes token of the repeated-username
branch (lines 263-265): returns (likes, rest). -/
def optLikesOver (likes : String) (l : List String) : String × List String :=
  match l with
  | tk :: r => if is_likes_token tk then (pyStrip tk, r) else (likes, l)
  | [] => (likes, [])

/-- The guarded trailing likes token of the single-username branch
(lines 308-310, only taken when likes is still empty): returns
(likes, rest). -/
def optLikesIfEmpty (likes : String) (l : List String) : String × List String :=
  match l with
  | tk :: r =>
    if is_likes_token tk && likes = "" then (pyStrip tk, r) else (likes, l)
  | [] => (likes, [])

/-- The optional time token plus after-time text loop of the
single-username branch (lines 291-305): returns
(extra text parts, posted_before, likes, rest). -/
def timeThenText (l : List String) : List String × String × String × List String :=
  match l with
  | tk :: r =>
    if is_time_token tk then
      let ex := extract_time_and_likes tk
      let at2 := afterTimeScan r (if ex.2 ≠ "" then ex.2 else "")
      (at2.1, ex.1, at2.2.1, at2.2.2)
    else ([], "", "", l)
  | [] => ([], "", "", [])

/-- Repeated-username comment branch (lines 246-274): u is the consumed
(duplicated) username, l the tokens after both copies. -/
def repBranch (u : String) (l : List String) : IgComment × List String :=
  let ts := textScan l
  let t2 := optTime ts.2
  let t3 := optLikesOver t2.2.1 t2.2.2
  (⟨u, joinStripped ts.1, t2.1, t3.1⟩, t3.2)

/-- Single-username comment branch (lines 276-320): u is the consumed
username, l the tokens after it. -/
def singleBranch (u : String) (l : List String) : IgComment × List String :=
  let ts := textScan l
  let s2 := timeThenText ts.2
  let s3 := optLikesIfEmpty s2.2.2.1 s2.2.2.2
  (⟨u, joinStripped (ts.1 ++ s2.1), s2.2.1, s3.1⟩, s3.2)

/-- Orphan time token (lines 322-330): attach posted_before / likes to
the previous comment if not already set. -/
def orphanTime (out : List IgComment) (token : String) : List IgComment :=
  let ex := extract_time_and_likes token
  updateLast out (fun c =>
    { c with
      posted_before :=
        if ex.1 ≠ "" then (if c.posted_before ≠ "" then c.posted_before else ex.1)
        else c.posted_before,
      likes :=
        if ex.2 ≠ "" then (if c.likes ≠ "" then c.likes else ex.2)
        else c.likes })

/-- Orphan likes token (lines 332-336). -/
def orphanLikes (out : List IgComment) (token : String) : List IgComment :=
  updateLast out (fun c =>
    { c with likes := if c.likes ≠ "" then c.likes else pyStrip token })

/-- Orphan free text (lines 338-344): append to the previous comment's
text, space-joined. -/
def orphanText (out : List IgComment) (token : String) : List IgComment :=
  if pyStrip token ≠ "" then
    updateLast out (fun c =>
      { c with text := if c.text ≠ "" then c.text ++ " " ++ pyStrip token
                       else pyStrip token })
  else out

/-- The main single forward pass of parse_comments_array
(lines 183-347), recursing over the unconsumed token suffix.  `cc` is
the caption_collected flag, `out` the accumulator.  The recursion is
indexed by `fuel` so that the definition is structurally recursive
(hence kernel-computable); every iteration of the source loop consumes
at least one token, so `fuel = arr.length` makes the fuel-exhaustion
branch unreachable (parseLoop_fuel below). -/
def parseLoop : Nat → List String → Bool → List IgComment → List IgComment
  | 0, _, _, out => out
  | _ + 1, [], _, out => out
  | fuel + 1, token :: rest, cc, out =>
    if pyStrip token = "" || is_ui_token token then
      parseLoop fuel rest cc out
    else if !cc && is_username_token token then
      parseLoop fuel (captionBranch token rest).2 true
        (out ++ (captionBranch token rest).1.toList)
    else if is_username_token token && rest.head? = some token then
      parseLoop fuel (repBranch token rest.tail).2 cc
        (out ++ [(repBranch token rest.tail).1])
    else if is_username_token token then
      parseLoop fuel (singleBranch token rest).2 cc
        (out ++ [(singleBranch token rest).1])
    else if is_time_token token then
      parseLoop fuel rest cc (orphanTime out token)
    else if is_likes_token token then
      parseLoop fuel rest cc (orphanLikes out token)
    else
      parseLoop fuel rest cc (orphanText out token)

/-- `parse_comments_array(arr)`: the pure token-stream parser. -/
def parse_comments_array (arr : List String) : List IgComment :=
  parseLoop arr.length arr false []

/-! ## Facebook per-comment post-processing
(src/routers/facebook.py, scrape_comments_for_url lines 630-653)

The emitted comment dict `{"name", "comment"}` with the optional keys
`is_emoji_only` (present iff set) and `posted_before`. -/

structure FbComment where
  name : String
  comment : String
  is_emoji_only : Bool
  posted_before : Option String
deriving DecidableEq, Repr

/-- Lines 630-653 of scrape_comments_for_url, given the already
extracted commenter name, comment text and detached relative-time
token.  `none` models the case where no comment object is appended
(the `if text:` guard fails on empty text).

The source first tries `re.search(r"[\w\p{L}]", stripped)`; Python's
re rejects the escape `\p`, so the `except` branch always runs and the
effective alphanumeric test is `any(ch.isalnum() for ch in text)`.
Python's per-character `str.isalnum` consults the runtime's full
Unicode tables (non-ASCII letters and digits are alphanumeric), which
are outside this development; the function is therefore parameterized
by that character classifier, exactly as the rendering session is
abstracted as a Feed.  Statements about the program quantify over the
classifier; concrete instances use a classifier that agrees with
Python on the characters involved. -/
def fb_build_comment (isalnum : Char → Bool) (name text : String)
    (posted_before : Option String) : Option FbComment :=
  if text = "" then none
  else
    let has_alnum := text.data.any isalnum
    let final1 := if has_alnum then text else ""
    let final2 :=
      if pyStrip final1 ≠ "" && pyStrip final1 = pyStrip name then "" else final1
    some { name := name, comment := final2,
           is_emoji_only := final2 = "" && !has_alnum,
           posted_before := posted_before }

/-! ## The Facebook link normalizer
(src/routers/facebook.py, _normalize_fb_href lines 39-62) -/

/-- `urllib.parse.urljoin('https://www.facebook.com', href)` for an
href that starts with '/': a protocol-relative '//host/...' href takes
the base scheme, otherwise the path is appended to the base origin. -/
def urljoinFB (href : String) : String :=
  if strLeads href "//" then "https:" ++ href else "https://www.facebook.com" ++ href

/-- `s.split('#', 1)[0]`: the characters before the first '#'. -/
def cutHash (s : String) : String := String.mk (s.data.takeWhile (fun c => c ≠ '#'))

/-- `s.split('?')[0]`: the characters before the first '?'. -/
def cutQuery (s : String) : String := String.mk (s.data.takeWhile (fun c => c ≠ '?'))

/-- `_normalize_fb_href`: canonicalize a Facebook href.  `none` models
Python None (both the falsy-input rejection and the fbid-less
photo.php rejection). -/
def _normalize_fb_href (href : String) : Option String :=
  if href = "" then none
  else
    let href := pyStrip href
    let href := if strLeads href "/" then urljoinFB href else href
    let low := pyLower href
    if strHasSub low "/photo.php" then
      if strHasSub low "fbid=" then some (cutHash href)
      else none
    else some (cutHash (cutQuery href))

/-! ## Frontier discovery
(src/routers/facebook.py, scroll_and_extract lines 300-404)

The rendering session is abstracted as a Feed: the document height and
the DOM contents (anchor hrefs, embedded-URL attribute texts) that a
round of scrolling would observe.  Python sets are modelled as
insertion-ordered duplicate-free lists; only membership and size are
consumed by the algorithm. -/

structure Feed where
  initHeight : Nat
  height : Nat → Nat
  anchors : Nat → List String
  attrs : Nat → List String

/-- The fixed content-path markers of scroll_and_extract. -/
def fbPatterns : List String :=
  ["/reel/", "/posts/", "/photos/", "/photo.php", "/videos/",
   "/permalink.php", "/permalink", "/watch", "/story.php", "/stories/"]

/-- The scope-qualified patterns for the profile being crawled. -/
def fbProfilePatterns (profile : String) : List String :=
  ["/" ++ profile ++ "/posts", "/" ++ profile ++ "/reel",
   "/" ++ profile ++ "/videos", "/" ++ profile ++ "/photos"]

/-- Python `set.add`. -/
def addToSet (s : List String) (x : String) : List String :=
  if x ∈ s then s else s ++ [x]

/-- Process one anchor href (lines 351-365): normalize, then classify
into (post_links, reels_links). -/
def classifyAnchor (profile : String) (st : List String × List String)
    (href : String) : List String × List String :=
  match _normalize_fb_href href with
  | none => st
  | some norm =>
    let lu := pyLower norm
    if strHasSub lu "/reel/" then (st.1, addToSet st.2 norm)
    else if fbPatterns.any (fun p => strHasSub lu p) ||
        (fbProfilePatterns profile).any (fun pp => strHasSub lu pp) then
      (addToSet st.1 norm, st.2)
    else st

/-- A character of the class `[\\w\\-\\.\\/:?=&%]` of the
attribute-URL regex.  The source writes the class with doubled
backslashes inside a raw string, so `\\w` is an escaped backslash
followed by a literal 'w', and the run `\\-\\` parses as a
backslash-to-backslash range (which adds nothing beyond the backslash
itself): the class contains exactly these nine characters, and '-' is
not one of them. -/
def attrClassChar (c : Char) : Bool :=
  c = '\\' || c = 'w' || c = '.' || c = '/' || c = ':' ||
    c = '?' || c = '=' || c = '&' || c = '%'

/-- The second regex alternative
`/photo\.php\?fbid=[0-9]+[\\w\\-\\./:?=&%]*` matched at the head of
`l` (its class denotes the same nine characters as attrClassChar):
returns (matched characters, rest). -/
def attrAlt2 (l : List Char) : Option (List Char × List Char) :=
  if leadEq "/photo.php?fbid=".data l then
    if (l.drop 16).takeWhile Char.isDigit = [] then none
    else
      some ("/photo.php?fbid=".data ++ (l.drop 16).takeWhile Char.isDigit ++
              ((l.drop 16).dropWhile Char.isDigit).takeWhile attrClassChar,
            ((l.drop 16).dropWhile Char.isDigit).dropWhile attrClassChar)
  else none

/-- The full alternation of the attribute-URL regex matched at the head
of `l` (alternative one first, with the `https?` backtracking). -/
def attrMatchAt (l : List Char) : Option (List Char × List Char) :=
  match l with
  | 'h' :: 't' :: 't' :: 'p' :: 's' :: ':' :: '/' :: '/' :: r2 =>
    if r2.takeWhile attrClassChar = [] then attrAlt2 l
    else some ("https://".data ++ r2.takeWhile attrClassChar,
               r2.dropWhile attrClassChar)
  | 'h' :: 't' :: 't' :: 'p' :: ':' :: '/' :: '/' :: r2 =>
    if r2.takeWhile attrClassChar = [] then attrAlt2 l
    else some ("http://".data ++ r2.takeWhile attrClassChar,
               r2.dropWhile attrClassChar)
  | _ => attrAlt2 l

/-- `re.finditer`, fuel-indexed for structural recursion: all
non-overlapping matches, scanning left to right.  Each step strictly
shortens the scanned list (attrMatchAt_rest_lt), so fuel equal to the
list length is always enough. -/
def attrScanF : Nat → List Char → List (List Char)
  | 0, _ => []
  | _ + 1, [] => []
  | fuel + 1, a :: t =>
    match attrMatchAt (a :: t) with
    | some (m, r) => m :: attrScanF fuel r
    | none => attrScanF fuel t

/-- `re.finditer` over a full attribute text. -/
def attrScan (l : List Char) : List (List Char) := attrScanF l.length l

/-- Process one embedded-URL regex match (lines 375-385): resolve a
relative href, strip query and fragment, and classify. -/
def classifyAttrMatch (profile : String) (st : List String × List String)
    (m : List Char) : List String × List String :=
  let href := String.mk m
  let href := if strLeads href "/" then urljoinFB href else href
  let clean := cutHash (cutQuery href)
  let lu := pyLower clean
  if fbPatterns.any (fun p => strHasSub lu p) ||
      (fbProfilePatterns profile).any (fun pp => strHasSub lu pp) ||
      strHasSub lu "/photo.php" then
    if strHasSub lu "/reel/" || strHasSub lu "/videos/" then
      (st.1, addToSet st.2 clean)
    else (addToSet st.1 clean, st.2)
  else st

/-- Process one attribute text (lines 372-387): run the embedded-URL
regex over it and classify every match. -/
def processAttrText (profile : String) (st : List String × List String)
    (txt : String) : List String × List String :=
  (attrScan txt.data).foldl (classifyAttrMatch profile) st

/-- The mutable state of the scroll_and_extract while-loop. -/
structure SState where
  post_links : List String
  reels_links : List String
  last_count : Nat
  attempts : Nat
  no_height_increase : Nat
  last_height : Nat
deriving Repr

/-- One round of the while-loop body (lines 316-394): scroll, compare
the page height, expand collapsed posts, extract and classify anchors
and attribute-embedded URLs, and update the stale counters. -/
def scrollRound (feed : Feed) (profile : String) (t : Nat) (s : SState) : SState :=
  let new_height := feed.height t
  let nhi := if new_height = s.last_height then s.no_height_increase + 1 else 0
  let sets1 := (feed.anchors t).foldl (classifyAnchor profile)
    (s.post_links, s.reels_links)
  let sets2 := (feed.attrs t).foldl (processAttrText profile) sets1
  let total := sets2.1.length + sets2.2.length
  { post_links := sets2.1, reels_links := sets2.2, last_count := total,
    attempts := if total = s.last_count then s.attempts + 1 else 0,
    no_height_increase := nhi, last_height := new_height }

/-- The `if stop_after and total_count >= stop_after` check
(line 397), with Python truthiness of stop_after. -/
def stopAfterHit (stop_after : Option Nat) (total : Nat) : Bool :=
  match stop_after with
  | none => false
  | some m => decide (m ≠ 0) && decide (total ≥ m)

/-- The while-loop of scroll_and_extract (lines 315-402), fuel-indexed:
`none` means the loop was still running after `fuel` rounds, `some s`
means it exited with final state `s`.  `t` indexes the feed rounds. -/
def scrollLoop (feed : Feed) (profile : String) (max_attempts nht : Nat)
    (stop_after : Option Nat) : Nat → Nat → SState → Option SState
  | 0, _, _ => none
  | fuel + 1, t, s =>
    if ¬ s.attempts < max_attempts then some s
    else
      let s' := scrollRound feed profile t s
      if stopAfterHit stop_after s'.last_count then some s'
      else if s'.no_height_increase ≥ nht ∧ s'.attempts > 0 then some s'
      else scrollLoop feed profile max_attempts nht stop_after fuel (t + 1) s'

/-- The loop state on entry (lines 301-312): empty sets, zero counters,
and the pre-loop document height. -/
def initSState (feed : Feed) : SState :=
  { post_links := [], reels_links := [], last_count := 0, attempts := 0,
    no_height_increase := 0, last_height := feed.initHeight }

/-- `scroll_and_extract(driver, profile, max_attempts=50,
no_height_threshold=3, stop_after=None)` with its default budgets,
given `fuel` available rounds. -/
def scroll_and_extract (feed : Feed) (profile : String)
    (stop_after : Option Nat) (fuel : Nat) : Option (List String × List String) :=
  (scrollLoop feed profile 50 3 stop_after fuel 0 (initSState feed)).map
    (fun s => (s.post_links, s.reels_links))

/-! ## The merge engine (src/helpers/mongo_helper.py)

Post records are Python dicts; they are modelled as association lists
of string keys and primitive values (the merge logic inspects only the
`post_url` and `scraped_at` values, all other fields ride along
opaquely).  Lookup returns the value of the first (in a well-formed
dict: only) occurrence of a key; setting a key replaces its value in
place or appends a new binding, exactly like a Python dict. -/

inductive PyVal where
  | s : String → PyVal
  | n : Int → PyVal
deriving DecidableEq, Repr

/-- A Python dict with string keys. -/
abbrev PyDict := List (String × PyVal)

/-- `d.get(k)` (None when absent). -/
def dictGet (d : PyDict) (k : String) : Option PyVal :=
  match d with
  | [] => none
  | (k', v) :: rest => if k' = k then some v else dictGet rest k

/-- `d[k] = v`. -/
def dictSet (d : PyDict) (k : String) (v : PyVal) : PyDict :=
  match d with
  | [] => [(k, v)]
  | (k', v') :: rest =>
    if k' = k then (k', v) :: rest else (k', v') :: dictSet rest k v

/-- `d.update(e)` applied to a copy of `d`. -/
def dictUpdate (d : PyDict) : PyDict → PyDict
  | [] => d
  | (k, v) :: rest => dictUpdate (dictSet d k v) rest

/-- `d.setdefault(k, v)`. -/
def dictSetdefault (d : PyDict) (k : String) (v : PyVal) : PyDict :=
  if (dictGet d k).isSome then d else d ++ [(k, v)]

/-- Python truthiness of `d.get(k)`: None, the empty string and 0 are
falsy. -/
def pyTruthy : Option PyVal → Bool
  | none => false
  | some (.s str) => str ≠ ""
  | some (.n i) => i ≠ 0

/-- The truthy `post_url` of a post, when it has one. -/
def urlOfT (p : PyDict) : Option PyVal :=
  match dictGet p "post_url" with
  | some v => if pyTruthy (some v) then some v else none
  | none => none

/-- An index (Python dict) from post_url values to list positions. -/
abbrev UrlIdx := List (PyVal × Nat)

def idxGet (idx : UrlIdx) (k : PyVal) : Option Nat :=
  match idx with
  | [] => none
  | (k', i) :: rest => if k' = k then some i else idxGet rest k

def idxSet (idx : UrlIdx) (k : PyVal) (i : Nat) : UrlIdx :=
  match idx with
  | [] => [(k, i)]
  | (k', i') :: rest =>
    if k' = k then (k', i) :: rest else (k', i') :: idxSet rest k i

/-- The keys of the Facebook/YouTube index include the absent /
non-truthy case (Python dict key None). -/
abbrev OUrlIdx := List (Option PyVal × Nat)

def oidxGet (idx : OUrlIdx) (k : Option PyVal) : Option Nat :=
  match idx with
  | [] => none
  | (k', i) :: rest => if k' = k then some i else oidxGet rest k

def oidxSet (idx : OUrlIdx) (k : Option PyVal) (i : Nat) : OUrlIdx :=
  match idx with
  | [] => [(k, i)]
  | (k', i') :: rest =>
    if k' = k then (k', i) :: rest else (k', i') :: oidxSet rest k i

/-- `{p.get("post_url"): i for i, p in enumerate(posts) if
p.get("post_url")}` (Instagram line 323 / Twitter line 285). -/
def buildIdxT (start : Nat) (acc : UrlIdx) : List PyDict → UrlIdx
  | [] => acc
  | p :: rest =>
    buildIdxT (start + 1)
      (match urlOfT p with
       | some v => idxSet acc v start
       | none => acc) rest

/-- `{post.get("post_url"): i for i, post in enumerate(posts)}`
(Facebook line 195 / YouTube line 121): no truthiness filter, so the
None key is possible. -/
def buildIdxAll (start : Nat) (acc : OUrlIdx) : List PyDict → OUrlIdx
  | [] => acc
  | p :: rest =>
    buildIdxAll (start + 1) (oidxSet acc (dictGet p "post_url") start) rest

/-- The change summary counters of a merge. -/
structure MergeOut where
  posts : List PyDict
  added : Nat
  updated : Nat
deriving DecidableEq, Repr

/-! ### Instagram merge (upsert_instagram_profile lines 320-356) -/

/-- The evolving state of the Instagram merge loop: the posts list, the
url index (which Instagram keeps up to date as it appends), and the
counters. -/
structure IgMergeState where
  posts : List PyDict
  idx : UrlIdx
  added : Nat
  updated : Nat

/-- The Instagram per-post loop body (lines 328-348).  A matching fresh
post is merged field-by-field into a copy of the existing entry
(`merged = existing_posts[idx].copy(); merged.update(scraped_post);
merged.setdefault("scraped_at", now)`); an unmatched or url-less fresh
post is appended with a defaulted scraped_at. -/
def ig_merge_step (now : Int) (st : IgMergeState) (scraped : PyDict) :
    IgMergeState :=
  match urlOfT scraped with
  | none =>
    { st with posts := st.posts ++ [dictSetdefault scraped "scraped_at" (.n now)],
              added := st.added + 1 }
  | some v =>
    match idxGet st.idx v with
    | some i =>
      let merged := dictSetdefault (dictUpdate (st.posts.getD i []) scraped)
        "scraped_at" (.n now)
      { st with posts := st.posts.set i merged, updated := st.updated + 1 }
    | none =>
      { posts := st.posts ++ [dictSetdefault scraped "scraped_at" (.n now)],
        idx := idxSet st.idx v st.posts.length,
        added := st.added + 1, updated := st.updated }

def ig_merge_loop (now : Int) (st : IgMergeState) : List PyDict → IgMergeState
  | [] => st
  | p :: rest => ig_merge_loop now (ig_merge_step now st p) rest

/-- The pure merge of upsert_instagram_profile for an existing profile:
existing posts plus a batch of scraped posts. -/
def upsert_instagram_merge (now : Int) (existing_posts posts : List PyDict) :
    MergeOut :=
  let final := ig_merge_loop now
    { posts := existing_posts, idx := buildIdxT 0 [] existing_posts,
      added := 0, updated := 0 } posts
  { posts := final.posts, added := final.added, updated := final.updated }

/-! ### Facebook merge (upsert_facebook_profile lines 193-218) -/

/-- The Facebook merge state: the index is built once and never updated
by the loop. -/
structure FbMergeState where
  posts : List PyDict
  added : Nat
  updated : Nat

/-- The Facebook per-post loop body (lines 200-208): wholesale
replacement on a key hit (the key may be the non-truthy None), append
otherwise; the index is not extended on append. -/
def fb_merge_step (idx0 : OUrlIdx) (st : FbMergeState) (scraped : PyDict) :
    FbMergeState :=
  match oidxGet idx0 (dictGet scraped "post_url") with
  | some i => { st with posts := st.posts.set i scraped, updated := st.updated + 1 }
  | none => { st with posts := st.posts ++ [scraped], added := st.added + 1 }

def fb_merge_loop (idx0 : OUrlIdx) (st : FbMergeState) :
    List PyDict → FbMergeState
  | [] => st
  | p :: rest => fb_merge_loop idx0 (fb_merge_step idx0 st p) rest

/-- The pure merge of upsert_facebook_profile for an existing
profile. -/
def upsert_facebook_merge (existing_posts posts : List PyDict) : MergeOut :=
  let final := fb_merge_loop (buildIdxAll 0 [] existing_posts)
    { posts := existing_posts, added := 0, updated := 0 } posts
  { posts := final.posts, added := final.added, updated := final.updated }

/-- The pure merge of upsert_youtube_profile for an existing profile
(lines 118-155): identical merge logic to Facebook — an unfiltered
index built once, wholesale replacement on hit, append on miss. -/
def upsert_youtube_merge (existing_posts posts : List PyDict) : MergeOut :=
  upsert_facebook_merge existing_posts posts

/-! ### Twitter merge (upsert_twitter_profile lines 283-300) -/

/-- The Twitter per-post loop body (lines 288-297): a fresh post with a
falsy post_url is skipped entirely; otherwise wholesale replacement on
a key hit, append on miss (index never extended). -/
def tw_merge_step (idx0 : UrlIdx) (st : FbMergeState) (new_r : PyDict) :
    FbMergeState :=
  match urlOfT new_r with
  | none => st
  | some v =>
    match idxGet idx0 v with
    | some i => { st with posts := st.posts.set i new_r, updated := st.updated + 1 }
    | none => { st with posts := st.posts ++ [new_r], added := st.added + 1 }

def tw_merge_loop (idx0 : UrlIdx) (st : FbMergeState) :
    List PyDict → FbMergeState
  | [] => st
  | p :: rest => tw_merge_loop idx0 (tw_merge_step idx0 st p) rest

/-- The pure merge of upsert_twitter_profile for an existing
profile. -/
def upsert_twitter_merge (existing_results results : List PyDict) : MergeOut :=
  let final := tw_merge_loop (buildIdxT 0 [] existing_results)
    { posts := existing_results, added := 0, updated := 0 } results
  { posts := final.posts, added := final.added, updated := final.updated }

/-- The truthy post_urls of a posts list, in order (the uniqueness
invariant of the spec is about these). -/
def postUrls (l : List PyDict) : List PyVal := l.filterMap urlOfT

/-- The parser as invoked by the scraping pipeline: an ambient
wall-clock reading and external session state are in scope at the call
sites (scrape_post_data passes neither into parse_comments_array, which
closes only over its compiled regexes). -/
def parse_comments_array_env (_wall_clock : Nat) (_session_state : List String)
    (arr : List String) : List IgComment :=
  parse_comments_array arr

/-! ## Invariants and concrete instances used by the verification -/

/-- C1 counterexample inputs: an existing aggregate whose only entry
carries a field "extra" absent from the fresh post. -/
def c1Existing : List PyDict := [[("post_url", .s "u"), ("extra", .s "old")]]

def c1Fresh : List PyDict := [[("post_url", .s "u"), ("cap", .s "new")]]

/-- Soundness of a url index with respect to a posts list: every key
maps to an in-range position whose post carries that url. -/
def IdxSound (posts : List PyDict) (idx : UrlIdx) : Prop :=
  ∀ v i, idxGet idx v = some i →
    i < posts.length ∧ urlOfT (posts.getD i []) = some v

/-- Completeness: every truthy url present in the posts list is a key
of the index. -/
def IdxComplete (posts : List PyDict) (idx : UrlIdx) : Prop :=
  ∀ v, v ∈ postUrls posts → (idxGet idx v).isSome

/-- The loop invariant of the Instagram merge: postUrls duplicate-free,
index sound and complete. -/
def IgInv (st : IgMergeState) : Prop :=
  (postUrls st.posts).Nodup ∧ IdxSound st.posts st.idx ∧
    IdxComplete st.posts st.idx

/-- The claim's conclusion: some fixed constant bounds the number of
scroll/extract rounds of every run (the run with that much fuel always
exits the loop). -/
def scrollBoundedByConstant : Prop :=
  ∃ B : Nat, ∀ (feed : Feed) (profile : String) (stop_after : Option Nat),
    (scroll_and_extract feed profile stop_after B).isSome = true

/-- One new candidate path per round: "p/posts/" followed by t copies
of 'a'.  It classifies as a post link (contains "/posts/"), never as a
reel, and is distinct for every round. -/
def clink (t : Nat) : String :=
  String.mk ("p/posts/".data ++ List.replicate t 'a')

/-- An adversarial feed whose page height grows every round and whose
DOM presents one never-seen-before post anchor per round. -/
def c5Feed : Feed :=
  { initHeight := 0, height := fun t => t + 1,
    anchors := fun t => [clink t], attrs := fun _ => [] }

/-- The loop state after t rounds on c5Feed. -/
def c5State (t : Nat) : SState :=
  { post_links := (List.range t).map clink, reels_links := [],
    last_count := t, attempts := 0, no_height_increase := 0,
    last_height := t }

/-- A feed with no content and constant height: the run with maxPosts 1
exits via the joint stale signal well inside the 102-round bound. -/
def c5ConstFeed : Feed :=
  { initHeight := 0, height := fun _ => 0, anchors := fun _ => [],
    attrs := fun _ => [] }

/-! ## Lemmas and claim theorems -/

theorem captionScan_rest_le (l : List String) (tf : Bool) (p : String)
    (parts : List String) : (captionScan l tf p parts).2.2.length ≤ l.length := by
  induction l generalizing tf p parts with
  | nil => simp [captionScan]
  | cons cur rest ih =>
    simp only [captionScan]
    split
    · exact Nat.le_succ_of_le (ih ..)
    · split
      · simp
      · split
        · exact Nat.le_succ_of_le (ih ..)
        · exact Nat.le_succ_of_le (ih ..)

theorem textScan_rest_le (l : List String) : (textScan l).2.length ≤ l.length := by
  induction l with
  | nil => simp [textScan]
  | cons cur rest ih =>
    simp only [textScan]
    split
    · simp
    · exact Nat.le_succ_of_le ih

theorem afterTimeScan_rest_le (l : List String) (lk : String) :
    (afterTimeScan l lk).2.2.length ≤ l.length := by
  induction l generalizing lk with
  | nil => simp [afterTimeScan]
  | cons cur rest ih =>
    simp only [afterTimeScan]
    split
    · simp
    · split
      · exact Nat.le_succ _
      · exact Nat.le_succ_of_le (ih _)

theorem captionBranch_rest_le (u : String) (l : List String) :
    (captionBranch u l).2.length ≤ l.length := by
  simpa [captionBranch] using captionScan_rest_le l false "" []

theorem optTime_rest_le (l : List String) : (optTime l).2.2.length ≤ l.length := by
  rcases l with _ | ⟨tk, r⟩
  · simp [optTime]
  · simp only [optTime]
    split <;> simp

theorem optLikesOver_rest_le (lk : String) (l : List String) :
    (optLikesOver lk l).2.length ≤ l.length := by
  rcases l with _ | ⟨tk, r⟩
  · simp [optLikesOver]
  · simp only [optLikesOver]
    split <;> simp

theorem optLikesIfEmpty_rest_le (lk : String) (l : List String) :
    (optLikesIfEmpty lk l).2.length ≤ l.length := by
  rcases l with _ | ⟨tk, r⟩
  · simp [optLikesIfEmpty]
  · simp only [optLikesIfEmpty]
    split <;> simp

theorem timeThenText_rest_le (l : List String) :
    (timeThenText l).2.2.2.length ≤ l.length := by
  rcases l with _ | ⟨tk, r⟩
  · simp [timeThenText]
  · simp only [timeThenText]
    split
    · exact Nat.le_succ_of_le (afterTimeScan_rest_le r _)
    · simp

theorem repBranch_rest_le (u : String) (l : List String) :
    (repBranch u l).2.length ≤ l.length :=
  le_trans (optLikesOver_rest_le _ _)
    (le_trans (optTime_rest_le _) (textScan_rest_le l))

theorem singleBranch_rest_le (u : String) (l : List String) :
    (singleBranch u l).2.length ≤ l.length :=
  le_trans (optLikesIfEmpty_rest_le _ _)
    (le_trans (timeThenText_rest_le _) (textScan_rest_le l))

theorem parseLoop_nil (fuel : Nat) (cc : Bool) (out : List IgComment) :
    parseLoop fuel [] cc out = out := by
  cases fuel <;> rfl

/-- The fuel is only a structural-recursion device: any fuel at least
the number of remaining tokens yields the same result. -/
theorem parseLoop_fuel : ∀ (fuel fuel' : Nat) (l : List String) (cc : Bool)
    (out : List IgComment), l.length ≤ fuel → l.length ≤ fuel' →
    parseLoop fuel l cc out = parseLoop fuel' l cc out := by
  intro fuel
  induction fuel using Nat.strong_induction_on with
  | _ fuel ih =>
    intro fuel' l cc out hle hle'
    match fuel, fuel', l with
    | _, _, [] => rw [parseLoop_nil, parseLoop_nil]
    | 0, _, token :: rest => simp at hle
    | _ + 1, 0, token :: rest => simp at hle'
    | f + 1, f' + 1, token :: rest =>
      simp only [List.length_cons, Nat.add_le_add_iff_right] at hle hle'
      simp only [parseLoop]
      have hcap := captionBranch_rest_le token rest
      have hrep := repBranch_rest_le token rest.tail
      have htail : rest.tail.length ≤ rest.length := by cases rest <;> simp
      have hsingle := singleBranch_rest_le token rest
      split
      · exact ih f (by omega) f' rest cc out hle hle'
      · split
        · exact ih f (by omega) f' _ true _ (by omega) (by omega)
        · split
          · exact ih f (by omega) f' _ cc _ (by omega) (by omega)
          · split
            · exact ih f (by omega) f' _ cc _ (by omega) (by omega)
            · split
              · exact ih f (by omega) f' rest cc _ hle hle'
              · split
                · exact ih f (by omega) f' rest cc _ hle hle'
                · exact ih f (by omega) f' rest cc _ hle hle'

theorem leadEq_length_le : ∀ (pat l : List Char), leadEq pat l = true →
    pat.length ≤ l.length := by
  intro pat
  induction pat with
  | nil => intro l _; simp
  | cons a as ih =>
    intro l h
    cases l with
    | nil => simp [leadEq] at h
    | cons b bs =>
      simp only [leadEq, Bool.and_eq_true] at h
      have := ih bs h.2
      simpa using Nat.succ_le_succ this

theorem takeWhile_dropWhile_length (p : Char → Bool) (l : List Char) :
    (l.takeWhile p).length + (l.dropWhile p).length = l.length := by
  have h := congrArg List.length (List.takeWhile_append_dropWhile (p := p) (l := l))
  rw [List.length_append] at h
  exact h

theorem attrAlt2_rest_lt (l m r : List Char) (h : attrAlt2 l = some (m, r)) :
    r.length < l.length := by
  simp only [attrAlt2] at h
  split at h
  · split at h
    · exact absurd h (by simp)
    · simp only [Option.some.injEq, Prod.mk.injEq] at h
      obtain ⟨-, hr⟩ := h
      subst hr
      rename_i hlead hds
      have h16 : (16 : Nat) ≤ l.length := by
        have := leadEq_length_le _ _ hlead
        simpa using this
      have hdlen : (l.drop 16).length = l.length - 16 := List.length_drop ..
      have e1 := takeWhile_dropWhile_length Char.isDigit (l.drop 16)
      have e2 := takeWhile_dropWhile_length attrClassChar
        ((l.drop 16).dropWhile Char.isDigit)
      have hds1 : 1 ≤ ((l.drop 16).takeWhile Char.isDigit).length := by
        rcases hne : (l.drop 16).takeWhile Char.isDigit with _ | ⟨c, cs⟩
        · exact absurd hne hds
        · simp
      omega
  · exact absurd h (by simp)

theorem attrMatchAt_rest_lt (l m r : List Char) (h : attrMatchAt l = some (m, r)) :
    r.length < l.length := by
  unfold attrMatchAt at h
  split at h
  · rename_i r2
    split at h
    · exact attrAlt2_rest_lt _ _ _ h
    · simp only [Option.some.injEq, Prod.mk.injEq] at h
      obtain ⟨-, hr⟩ := h
      subst hr
      have := takeWhile_dropWhile_length attrClassChar r2
      simp only [List.length_cons]
      omega
  · rename_i r2
    split at h
    · exact attrAlt2_rest_lt _ _ _ h
    · simp only [Option.some.injEq, Prod.mk.injEq] at h
      obtain ⟨-, hr⟩ := h
      subst hr
      have := takeWhile_dropWhile_length attrClassChar r2
      simp only [List.length_cons]
      omega
  · exact attrAlt2_rest_lt _ _ _ h

theorem attrScanF_nil (fuel : Nat) : attrScanF fuel [] = [] := by
  cases fuel <;> rfl

/-- The fuel is only a structural-recursion device. -/
theorem attrScanF_fuel : ∀ (fuel fuel' : Nat) (l : List Char),
    l.length ≤ fuel → l.length ≤ fuel' → attrScanF fuel l = attrScanF fuel' l := by
  intro fuel
  induction fuel using Nat.strong_induction_on with
  | _ fuel ih =>
    intro fuel' l hle hle'
    match fuel, fuel', l with
    | _, _, [] => rw [attrScanF_nil, attrScanF_nil]
    | 0, _, a :: t => simp at hle
    | _ + 1, 0, a :: t => simp at hle'
    | f + 1, f' + 1, a :: t =>
      simp only [List.length_cons, Nat.add_le_add_iff_right] at hle hle'
      simp only [attrScanF]
      split
      · rename_i m r h
        have := attrMatchAt_rest_lt (a :: t) m r h
        simp only [List.length_cons] at this
        rw [ih f (by omega) f' r (by omega) (by omega)]
      · rw [ih f (by omega) f' t (by omega) (by omega)]

/-- C10: the Facebook link normalizer decides acceptance of /photo.php
URLs by searching for 'fbid=' anywhere in the lowercased input,
including the fragment: 'https://www.facebook.com/photo.php#fbid=123'
is accepted and normalized to a photo.php URL that contains no fbid
parameter at all, rather than rejected as null. -/
theorem C10_photo_fbid_fragment_accepted :
    _normalize_fb_href "https://www.facebook.com/photo.php#fbid=123" =
      some "https://www.facebook.com/photo.php" ∧
    strHasSub (pyLower "https://www.facebook.com/photo.php") "fbid=" = false := by
  decide

theorem parseLoop_ui_all (ts : List String) : ∀ (fuel : Nat) (cc : Bool)
    (out : List IgComment), (∀ t ∈ ts, is_ui_token t = true) →
    parseLoop fuel ts cc out = out := by
  induction ts with
  | nil => intro fuel cc out _; exact parseLoop_nil ..
  | cons t rest ih =>
    intro fuel cc out h
    cases fuel with
    | zero => rfl
    | succ f =>
      have ht : is_ui_token t = true := h t (by simp)
      simp only [parseLoop, ht, Bool.or_true, if_true]
      exact ih f cc out (fun x hx => h x (by simp [hx]))

/-- C4: the token-stream parser is a total function over arbitrary
finite token lists (it is a total Lean function by construction); the
empty list parses to the empty comment list, and a list of only UI
tokens parses to the empty comment list. -/
theorem C4_parser_total_function :
    parse_comments_array [] = [] ∧
    ∀ ts : List String, (∀ t ∈ ts, is_ui_token t = true) →
      parse_comments_array ts = [] := by
  refine ⟨rfl, ?_⟩
  intro ts h
  exact parseLoop_ui_all ts ts.length false [] h

theorem C4_witness :
    parse_comments_array [] = [] ∧
    parse_comments_array ["Reply", "See translation", "View replies (3)"] = [] :=
  ⟨C4_parser_total_function.1,
   C4_parser_total_function.2 ["Reply", "See translation", "View replies (3)"]
     (by decide)⟩

/-- C8: the token-stream parser is deterministic: its output depends
only on the token list, with no dependence on the ambient wall-clock
or external session state available at its call sites. -/
theorem C8_parser_deterministic (clock1 clock2 : Nat)
    (state1 state2 : List String) (arr : List String) :
    parse_comments_array_env clock1 state1 arr =
      parse_comments_array_env clock2 state2 arr := rfl

/-- C3 counterexample: at stream start, the caption block (the first
state-machine rule) consumes the duplicated-username run, so the token
list of the claim's scenario does not parse to the claimed comment. -/
theorem C3_counterexample :
    parse_comments_array ["alice", "alice", "great product!", "2h", "15 likes"] ≠
      [⟨"alice", "great product!", "2h", "15 likes"⟩] := by
  decide

/-- C3 amended: at stream start the caption block absorbs the tokens,
yielding one comment with text "alice great product!" and empty likes;
when the same five tokens appear after the caption block has already
been collected (here preceded by the caption run ["zed", "1h"]), the
repeated-username rule yields exactly the claimed comment
{username "alice", text "great product!", postedBefore "2h",
likes "15 likes"}. -/
theorem C3_amended_repeated_username :
    parse_comments_array ["alice", "alice", "great product!", "2h", "15 likes"] =
      [⟨"alice", "alice great product!", "2h", ""⟩] ∧
    parse_comments_array
        ["zed", "1h", "alice", "alice", "great product!", "2h", "15 likes"] =
      [⟨"zed", "", "1h", ""⟩, ⟨"alice", "great product!", "2h", "15 likes"⟩] := by
  decide

/-- C7 counterexample: the Instagram token-stream parser performs no
emoji-only post-processing: the token "😀😀" following a recognized
(duplicated) username is emitted as the comment text unchanged — not
blanked, not empty — and the emitted record carries no isEmojiOnly
field at all ('😀' is not alphanumeric under Python's str.isalnum, so
the claim's scenario demanded empty text and the flag). -/
theorem C7_counterexample :
    parse_comments_array ["zed", "1h", "alice", "alice", "😀😀"] =
      [⟨"zed", "", "1h", ""⟩, ⟨"alice", "😀😀", "", ""⟩] ∧
    ("😀😀" : String) ≠ "" := by
  decide

/-- C7 amended: the emoji-only / username-equality blanking exists only
in the Facebook comment scraper (scrape_comments_for_url): for every
character classifier (in particular Python's Unicode str.isalnum),
a non-empty extracted text none of whose characters is alphanumeric
under the classifier is emitted with empty text and is_emoji_only set,
and a non-empty text containing an alphanumeric character whose strip
equals the stripped name is blanked (with is_emoji_only not set).  The
Instagram token-stream parser performs no such post-processing. -/
theorem C7_amended_fb_postprocessing :
    (∀ (isalnum : Char → Bool) (name text : String) (pb : Option String),
      text ≠ "" → text.data.any isalnum = false →
      fb_build_comment isalnum name text pb = some ⟨name, "", true, pb⟩) ∧
    (∀ (isalnum : Char → Bool) (name text : String) (pb : Option String),
      text ≠ "" → text.data.any isalnum = true →
      pyStrip text ≠ "" → pyStrip text = pyStrip name →
      fb_build_comment isalnum name text pb = some ⟨name, "", false, pb⟩) := by
  constructor
  · intro isalnum name text pb hne halnum
    simp only [fb_build_comment, if_neg hne, halnum, Bool.false_eq_true,
      if_false]
    have h0 : pyStrip "" = "" := rfl
    simp [h0]
  · intro isalnum name text pb hne halnum hstrip heq
    simp only [fb_build_comment, if_neg hne, halnum, if_true]
    simp [hstrip, heq]
    intro h
    rw [heq] at hstrip
    exact absurd h hstrip

/-- The classifier instance Char.isAlphanum agrees with Python's
str.isalnum on every character of these two scenarios (ASCII letters
are alphanumeric in both; the emoji is alphanumeric in neither). -/
theorem C7_witness :
    fb_build_comment Char.isAlphanum "alice" "😀😀" none =
      some ⟨"alice", "", true, none⟩ ∧
    fb_build_comment Char.isAlphanum "bob" " bob " (some "2h") =
      some ⟨"bob", "", false, some "2h"⟩ :=
  ⟨C7_amended_fb_postprocessing.1 Char.isAlphanum "alice" "😀😀" none
     (by decide) (by decide),
   C7_amended_fb_postprocessing.2 Char.isAlphanum "bob" " bob " (some "2h")
     (by decide) (by decide) (by decide) (by decide)⟩

/-! ### C1 / C6: per-post merge behavior -/

/-- C1 counterexample: in the Instagram merge, a fresh post whose
postUrl matches an existing entry does NOT replace it wholesale: the
old entry's field "extra" (absent from the fresh post) survives into
the resulting entry, and the result differs from the fresh batch,
although updated is incremented as claimed. -/
theorem C1_counterexample :
    dictGet ((upsert_instagram_merge 7 c1Existing c1Fresh).posts.getD 0 [])
        "extra" = some (.s "old") ∧
    (upsert_instagram_merge 7 c1Existing c1Fresh).updated = 1 ∧
    (upsert_instagram_merge 7 c1Existing c1Fresh).posts ≠ c1Fresh := by
  decide

/-- C1 amended: in the YouTube (and Facebook) merge, a fresh post whose
postUrl key hits the index replaces that entry wholesale and increments
updated, and a miss appends it and increments added; in the Instagram
merge, a hit does not replace wholesale but updates a copy of the
existing entry field-by-field with the fresh post's fields (incoming
values win, old-only fields are preserved, scraped_at defaulted) and
increments updated, while a miss appends the fresh post (with a
defaulted scraped_at) and increments added.  Stated for a
single-element batch over an arbitrary existing aggregate; every fresh
post of a longer batch passes through the same per-post step. -/
theorem C1_amended_merge_step :
    (∀ (existing : List PyDict) (p : PyDict) (i : Nat),
      oidxGet (buildIdxAll 0 [] existing) (dictGet p "post_url") = some i →
      upsert_youtube_merge existing [p] = ⟨existing.set i p, 0, 1⟩) ∧
    (∀ (existing : List PyDict) (p : PyDict),
      oidxGet (buildIdxAll 0 [] existing) (dictGet p "post_url") = none →
      upsert_youtube_merge existing [p] = ⟨existing ++ [p], 1, 0⟩) ∧
    (∀ (now : Int) (existing : List PyDict) (p : PyDict) (v : PyVal) (i : Nat),
      urlOfT p = some v → idxGet (buildIdxT 0 [] existing) v = some i →
      upsert_instagram_merge now existing [p] =
        ⟨existing.set i (dictSetdefault (dictUpdate (existing.getD i []) p)
            "scraped_at" (.n now)), 0, 1⟩) ∧
    (∀ (now : Int) (existing : List PyDict) (p : PyDict) (v : PyVal),
      urlOfT p = some v → idxGet (buildIdxT 0 [] existing) v = none →
      upsert_instagram_merge now existing [p] =
        ⟨existing ++ [dictSetdefault p "scraped_at" (.n now)], 1, 0⟩) := by
  refine ⟨?_, ?_, ?_, ?_⟩
  · intro existing p i h
    simp [upsert_youtube_merge, upsert_facebook_merge, fb_merge_loop,
      fb_merge_step, h]
  · intro existing p h
    simp [upsert_youtube_merge, upsert_facebook_merge, fb_merge_loop,
      fb_merge_step, h]
  · intro now existing p v i hv h
    simp [upsert_instagram_merge, ig_merge_loop, ig_merge_step, hv, h]
  · intro now existing p v hv h
    simp [upsert_instagram_merge, ig_merge_loop, ig_merge_step, hv, h]

theorem C1_witness :
    upsert_youtube_merge [[("post_url", .s "u"), ("extra", .s "old")]]
        [[("post_url", .s "u"), ("cap", .s "new")]] =
      ⟨[[("post_url", .s "u"), ("cap", .s "new")]], 0, 1⟩ ∧
    upsert_youtube_merge [[("post_url", .s "u")]] [[("post_url", .s "w")]] =
      ⟨[[("post_url", .s "u")], [("post_url", .s "w")]], 1, 0⟩ ∧
    upsert_instagram_merge 7 [[("post_url", .s "u"), ("extra", .s "old")]]
        [[("post_url", .s "u"), ("cap", .s "new")]] =
      ⟨[[("post_url", .s "u"), ("extra", .s "old"), ("cap", .s "new"),
         ("scraped_at", .n 7)]], 0, 1⟩ ∧
    upsert_instagram_merge 7 [[("post_url", .s "u")]] [[("post_url", .s "w")]] =
      ⟨[[("post_url", .s "u")], [("post_url", .s "w"), ("scraped_at", .n 7)]],
        1, 0⟩ := by
  refine ⟨?_, ?_, ?_, ?_⟩
  · have h := C1_amended_merge_step.1 [[("post_url", .s "u"), ("extra", .s "old")]]
      [("post_url", .s "u"), ("cap", .s "new")] 0 (by decide)
    rw [h]; decide
  · exact C1_amended_merge_step.2.1 [[("post_url", .s "u")]]
      [("post_url", .s "w")] (by decide)
  · have h := C1_amended_merge_step.2.2.1 7
      [[("post_url", .s "u"), ("extra", .s "old")]]
      [("post_url", .s "u"), ("cap", .s "new")] (.s "u") 0 (by decide) (by decide)
    rw [h]; decide
  · have h := C1_amended_merge_step.2.2.2 7 [[("post_url", .s "u")]]
      [("post_url", .s "w")] (.s "w") (by decide) (by decide)
    rw [h]; decide

/-- C6 counterexample: the Twitter merge silently skips a fresh post
lacking a (truthy) post_url: it is neither appended nor counted. -/
theorem C6_counterexample :
    (upsert_twitter_merge [] [[("text", .s "hi")]]).posts = [] ∧
    (upsert_twitter_merge [] [[("text", .s "hi")]]).added = 0 := by
  decide

/-- C6 amended: in the Instagram merge a fresh post lacking a truthy
postUrl is appended (with a defaulted scraped_at) and counted as added;
in the Twitter merge such a post is silently dropped — neither appended
nor counted.  Stated for a single-element batch over an arbitrary
existing aggregate. -/
theorem C6_amended_urlless_posts :
    (∀ (now : Int) (existing : List PyDict) (p : PyDict), urlOfT p = none →
      upsert_instagram_merge now existing [p] =
        ⟨existing ++ [dictSetdefault p "scraped_at" (.n now)], 1, 0⟩) ∧
    (∀ (existing : List PyDict) (p : PyDict), urlOfT p = none →
      upsert_twitter_merge existing [p] = ⟨existing, 0, 0⟩) := by
  constructor
  · intro now existing p h
    simp [upsert_instagram_merge, ig_merge_loop, ig_merge_step, h]
  · intro existing p h
    simp [upsert_twitter_merge, tw_merge_loop, tw_merge_step, h]

theorem C6_witness :
    upsert_instagram_merge 7 [] [[("text", .s "hi")]] =
      ⟨[[("text", .s "hi"), ("scraped_at", .n 7)]], 1, 0⟩ ∧
    upsert_twitter_merge [[("post_url", .s "u")]] [[("text", .s "hi")]] =
      ⟨[[("post_url", .s "u")]], 0, 0⟩ :=
  ⟨by
     have h := C6_amended_urlless_posts.1 7 [] [("text", .s "hi")] (by decide)
     rw [h]; decide,
   C6_amended_urlless_posts.2 [[("post_url", .s "u")]] [("text", .s "hi")]
     (by decide)⟩

/-! ### C9: the merge never shrinks the posts list -/

theorem fb_loop_len (ps : List PyDict) : ∀ (idx0 : OUrlIdx) (st : FbMergeState),
    (fb_merge_loop idx0 st ps).posts.length + st.added =
      st.posts.length + (fb_merge_loop idx0 st ps).added := by
  induction ps with
  | nil => intro idx0 st; simp [fb_merge_loop]
  | cons p rest ih =>
    intro idx0 st
    simp only [fb_merge_loop]
    have h := ih idx0 (fb_merge_step idx0 st p)
    rcases hm : oidxGet idx0 (dictGet p "post_url") with _ | i <;>
      simp only [fb_merge_step, hm] at h ⊢ <;>
      simp only [List.length_append, List.length_set, List.length_cons,
        List.length_nil] at h ⊢ <;>
      omega

theorem tw_loop_len (ps : List PyDict) : ∀ (idx0 : UrlIdx) (st : FbMergeState),
    (tw_merge_loop idx0 st ps).posts.length + st.added =
      st.posts.length + (tw_merge_loop idx0 st ps).added := by
  induction ps with
  | nil => intro idx0 st; simp [tw_merge_loop]
  | cons p rest ih =>
    intro idx0 st
    simp only [tw_merge_loop]
    have h := ih idx0 (tw_merge_step idx0 st p)
    rcases hu : urlOfT p with _ | v
    · simpa only [tw_merge_step, hu] using h
    · rcases hm : idxGet idx0 v with _ | i <;>
        simp only [tw_merge_step, hu, hm] at h ⊢ <;>
        simp only [List.length_append, List.length_set, List.length_cons,
          List.length_nil] at h ⊢ <;>
        omega

theorem ig_loop_len (ps : List PyDict) : ∀ (now : Int) (st : IgMergeState),
    (ig_merge_loop now st ps).posts.length + st.added =
      st.posts.length + (ig_merge_loop now st ps).added := by
  induction ps with
  | nil => intro now st; simp [ig_merge_loop]
  | cons p rest ih =>
    intro now st
    simp only [ig_merge_loop]
    have h := ih now (ig_merge_step now st p)
    rcases hu : urlOfT p with _ | v
    · simp only [ig_merge_step, hu] at h ⊢
      simp only [List.length_append, List.length_cons, List.length_nil] at h ⊢
      omega
    · rcases hm : idxGet st.idx v with _ | i <;>
        simp only [ig_merge_step, hu, hm] at h ⊢ <;>
        simp only [List.length_append, List.length_set, List.length_cons,
          List.length_nil] at h ⊢ <;>
        omega

/-- C9: for every merge into an existing aggregate (Facebook,
Instagram, Twitter), the resulting posts list length equals the
previous length plus the reported added count — replacements never
change the length, and no entry is ever removed. -/
theorem C9_length_equals_old_plus_added :
    (∀ (existing posts : List PyDict),
      (upsert_facebook_merge existing posts).posts.length =
        existing.length + (upsert_facebook_merge existing posts).added) ∧
    (∀ (now : Int) (existing posts : List PyDict),
      (upsert_instagram_merge now existing posts).posts.length =
        existing.length + (upsert_instagram_merge now existing posts).added) ∧
    (∀ (existing posts : List PyDict),
      (upsert_twitter_merge existing posts).posts.length =
        existing.length + (upsert_twitter_merge existing posts).added) := by
  refine ⟨?_, ?_, ?_⟩
  · intro existing posts
    have h := fb_loop_len posts (buildIdxAll 0 [] existing)
      { posts := existing, added := 0, updated := 0 }
    simpa [upsert_facebook_merge] using h
  · intro now existing posts
    have h := ig_loop_len posts now
      { posts := existing, idx := buildIdxT 0 [] existing, added := 0,
        updated := 0 }
    simpa [upsert_instagram_merge] using h
  · intro existing posts
    have h := tw_loop_len posts (buildIdxT 0 [] existing)
      { posts := existing, added := 0, updated := 0 }
    simpa [upsert_twitter_merge] using h

/-! ### C2: uniqueness of postUrls -/

theorem dictGet_set (d : PyDict) (k : String) (v : PyVal) (k' : String) :
    dictGet (dictSet d k v) k' = if k = k' then some v else dictGet d k' := by
  induction d with
  | nil =>
    simp only [dictSet, dictGet]
  | cons kv rest ih =>
    obtain ⟨k0, v0⟩ := kv
    by_cases h0 : k0 = k
    · subst h0
      by_cases h1 : k0 = k'
      · subst h1
        simp [dictSet, dictGet]
      · simp [dictSet, dictGet, h1]
    · by_cases h1 : k0 = k'
      · subst h1
        have hk : ¬ k = k0 := fun h => h0 h.symm
        simp [dictSet, dictGet, h0, hk]
      · simp [dictSet, dictGet, h0, h1, ih]

theorem dictGet_update_not_mem (e : PyDict) : ∀ (d : PyDict) (k : String),
    (∀ kv ∈ e, kv.1 ≠ k) → dictGet (dictUpdate d e) k = dictGet d k := by
  induction e with
  | nil => intro d k _; rfl
  | cons kv rest ih =>
    obtain ⟨k0, v0⟩ := kv
    intro d k h
    simp only [dictUpdate]
    rw [ih (dictSet d k0 v0) k (fun kv hkv => h kv (by simp [hkv]))]
    rw [dictGet_set]
    have : k0 ≠ k := h (k0, v0) (by simp)
    simp [this]

theorem dictGet_update_mem (e : PyDict) : ∀ (d : PyDict) (k : String) (v : PyVal),
    (e.map Prod.fst).Nodup → dictGet e k = some v →
    dictGet (dictUpdate d e) k = some v := by
  induction e with
  | nil => intro d k v _ h; simp [dictGet] at h
  | cons kv rest ih =>
    obtain ⟨k0, v0⟩ := kv
    intro d k v hnd hget
    simp only [List.map_cons, List.nodup_cons] at hnd
    simp only [dictGet] at hget
    simp only [dictUpdate]
    -- hget : (if k0 = k then some v0 else dictGet rest k) = some v
    by_cases h0 : k0 = k
    · subst h0
      rw [if_pos rfl] at hget
      injection hget with hv
      subst hv
      rw [dictGet_update_not_mem rest (dictSet d k0 v0) k0
        (fun kv hkv heq => hnd.1 (heq ▸ List.mem_map_of_mem Prod.fst hkv))]
      rw [dictGet_set]
      simp
    · rw [if_neg h0] at hget
      exact ih (dictSet d k0 v0) k v hnd.2 hget

theorem dictGet_append_single (d : PyDict) (k : String) (v : PyVal) (k' : String) :
    dictGet (d ++ [(k, v)]) k' =
      (dictGet d k').or (if k = k' then some v else none) := by
  induction d with
  | nil => simp [dictGet]
  | cons kv rest ih =>
    obtain ⟨k0, v0⟩ := kv
    by_cases h0 : k0 = k'
    · simp [dictGet, h0]
    · simp [dictGet, h0, ih]

theorem dictGet_setdefault_ne (d : PyDict) (k : String) (v : PyVal) (k' : String)
    (h : k ≠ k') : dictGet (dictSetdefault d k v) k' = dictGet d k' := by
  unfold dictSetdefault
  split
  · rfl
  · rw [dictGet_append_single, if_neg h]
    cases dictGet d k' <;> rfl

theorem urlOfT_setdefault_sa (p : PyDict) (now : Int) :
    urlOfT (dictSetdefault p "scraped_at" (.n now)) = urlOfT p := by
  unfold urlOfT
  rw [dictGet_setdefault_ne _ _ _ _ (by decide)]

theorem urlOfT_some (p : PyDict) (v : PyVal) (h : urlOfT p = some v) :
    dictGet p "post_url" = some v ∧ pyTruthy (some v) = true := by
  unfold urlOfT at h
  rcases hget : dictGet p "post_url" with _ | w <;> rw [hget] at h
  · simp at h
  · dsimp only at h
    split at h
    · rename_i ht
      obtain rfl : w = v := by simpa using h
      exact ⟨rfl, ht⟩
    · simp at h

theorem urlOfT_of_get (p : PyDict) (v : PyVal)
    (hg : dictGet p "post_url" = some v) (ht : pyTruthy (some v) = true) :
    urlOfT p = some v := by
  unfold urlOfT
  rw [hg]
  dsimp only
  simp [ht]

theorem urlOfT_merged (d p : PyDict) (now : Int) (v : PyVal)
    (hwf : (p.map Prod.fst).Nodup) (hv : urlOfT p = some v) :
    urlOfT (dictSetdefault (dictUpdate d p) "scraped_at" (.n now)) = some v := by
  obtain ⟨hget, ht⟩ := urlOfT_some p v hv
  apply urlOfT_of_get
  · rw [dictGet_setdefault_ne _ _ _ _ (by decide)]
    exact dictGet_update_mem p d "post_url" v hwf hget
  · exact ht

theorem idxGet_set (idx : UrlIdx) (k : PyVal) (i : Nat) (k' : PyVal) :
    idxGet (idxSet idx k i) k' = if k = k' then some i else idxGet idx k' := by
  induction idx with
  | nil => simp only [idxSet, idxGet]
  | cons kv rest ih =>
    obtain ⟨k0, i0⟩ := kv
    by_cases h0 : k0 = k
    · subst h0
      by_cases h1 : k0 = k'
      · subst h1
        simp [idxSet, idxGet]
      · simp [idxSet, idxGet, h1]
    · by_cases h1 : k0 = k'
      · subst h1
        have hk : ¬ k = k0 := fun h => h0 h.symm
        simp [idxSet, idxGet, h0, hk]
      · simp [idxSet, idxGet, h0, h1, ih]

theorem idxGet_set_isSome (idx : UrlIdx) (k : PyVal) (i : Nat) (v : PyVal)
    (h : (idxGet idx v).isSome) : (idxGet (idxSet idx k i) v).isSome := by
  rw [idxGet_set]
  split <;> simp [h]

theorem buildIdxT_sound (l : List PyDict) : ∀ (start : Nat) (acc : UrlIdx)
    (posts : List PyDict), IdxSound posts acc →
    (∀ j, j < l.length →
      start + j < posts.length ∧ posts.getD (start + j) [] = l.getD j []) →
    IdxSound posts (buildIdxT start acc l) := by
  induction l with
  | nil => intro start acc posts hacc _; exact hacc
  | cons p rest ih =>
    intro start acc posts hacc hpos
    simp only [buildIdxT]
    apply ih (start + 1)
    · rcases hu : urlOfT p with _ | v
      · exact hacc
      · intro v' i hgi
        rw [idxGet_set] at hgi
        split at hgi
        · rename_i hvv
          simp only [Option.some.injEq] at hgi
          subst hgi
          have h0 := hpos 0 (by simp)
          simp only [Nat.add_zero, List.getD_cons_zero] at h0
          exact ⟨h0.1, by rw [h0.2, hu, hvv]⟩
        · exact hacc v' i hgi
    · intro j hj
      have h := hpos (j + 1) (by simpa using Nat.succ_lt_succ hj)
      simp only [List.getD_cons_succ] at h
      have harith : start + 1 + j = start + (j + 1) := by omega
      rw [harith]
      exact h

theorem buildIdxT_keeps (l : List PyDict) : ∀ (start : Nat) (acc : UrlIdx)
    (v : PyVal), (idxGet acc v).isSome →
    (idxGet (buildIdxT start acc l) v).isSome := by
  induction l with
  | nil => intro start acc v h; exact h
  | cons p rest ih =>
    intro start acc v h
    simp only [buildIdxT]
    apply ih
    rcases urlOfT p with _ | w
    · exact h
    · exact idxGet_set_isSome _ _ _ _ h

theorem buildIdxT_covers (l : List PyDict) : ∀ (start : Nat) (acc : UrlIdx)
    (p : PyDict), p ∈ l → ∀ v, urlOfT p = some v →
    (idxGet (buildIdxT start acc l) v).isSome := by
  induction l with
  | nil => intro start acc p hp; simp at hp
  | cons q rest ih =>
    intro start acc p hp v hv
    rcases List.mem_cons.mp hp with heq | hmem
    · subst heq
      simp only [buildIdxT, hv]
      apply buildIdxT_keeps
      rw [idxGet_set]
      simp
    · simp only [buildIdxT]
      exact ih _ _ p hmem v hv

/-- postUrls distributes over append. -/
theorem postUrls_append (l l' : List PyDict) :
    postUrls (l ++ l') = postUrls l ++ postUrls l' := by
  simp [postUrls]

theorem filterMap_set_eq {α β : Type} [Inhabited α] (f : α → Option β) :
    ∀ (l : List α) (i : Nat) (x : α), i < l.length →
    f x = f (l.getD i default) → (l.set i x).filterMap f = l.filterMap f := by
  intro l
  induction l with
  | nil => intro i x h; simp at h
  | cons a t ih =>
    intro i x hi hf
    cases i with
    | zero =>
      simp only [List.getD_cons_zero] at hf
      simp only [List.set_cons_zero, List.filterMap_cons]
      rw [hf]
    | succ j =>
      simp only [List.getD_cons_succ] at hf
      simp only [List.set_cons_succ, List.filterMap_cons]
      rw [ih j x (by simpa using Nat.lt_of_succ_lt_succ hi) hf]

theorem postUrls_set_eq (l : List PyDict) (i : Nat) (x : PyDict)
    (hi : i < l.length) (hf : urlOfT x = urlOfT (l.getD i [])) :
    postUrls (l.set i x) = postUrls l := by
  unfold postUrls
  exact filterMap_set_eq urlOfT l i x hi hf

theorem getD_set_self (l : List PyDict) (i : Nat) (x : PyDict) (hi : i < l.length) :
    (l.set i x).getD i [] = x := by
  induction l generalizing i with
  | nil => simp at hi
  | cons a t ih =>
    cases i with
    | zero => simp
    | succ j => simpa using ih j (by simpa using Nat.lt_of_succ_lt_succ hi)

theorem getD_set_ne (l : List PyDict) (i j : Nat) (x : PyDict) (h : i ≠ j) :
    (l.set i x).getD j [] = l.getD j [] := by
  induction l generalizing i j with
  | nil => simp
  | cons a t ih =>
    cases i with
    | zero => cases j with
      | zero => exact absurd rfl h
      | succ j' => simp
    | succ i' => cases j with
      | zero => simp
      | succ j' => simpa using ih i' j' (fun he => h (by rw [he]))

theorem getD_append_left (l l' : List PyDict) (i : Nat) (hi : i < l.length) :
    (l ++ l').getD i [] = l.getD i [] := by
  induction l generalizing i with
  | nil => simp at hi
  | cons a t ih =>
    cases i with
    | zero => simp
    | succ j => simpa using ih j (by simpa using Nat.lt_of_succ_lt_succ hi)

theorem getD_append_len (l : List PyDict) (x : PyDict) :
    (l ++ [x]).getD l.length [] = x := by
  induction l with
  | nil => simp
  | cons a t ih => simp [ih]

theorem ig_step_inv (now : Int) (st : IgMergeState) (p : PyDict)
    (hwf : (p.map Prod.fst).Nodup) (h : IgInv st) :
    IgInv (ig_merge_step now st p) := by
  obtain ⟨hnd, hsound, hcomp⟩ := h
  rcases hu : urlOfT p with _ | v
  · -- url-less: append, index unchanged
    have hps : urlOfT (dictSetdefault p "scraped_at" (.n now)) = none := by
      rw [urlOfT_setdefault_sa, hu]
    refine ⟨?_, ?_, ?_⟩ <;>
      simp only [ig_merge_step, hu]
    · rw [postUrls_append]
      simpa [postUrls, hps] using hnd
    · intro v' i hgi
      obtain ⟨hi, hurl⟩ := hsound v' i hgi
      refine ⟨by simp; omega, ?_⟩
      rw [getD_append_left _ _ _ hi]
      exact hurl
    · intro v' hv'
      rw [postUrls_append] at hv'
      apply hcomp
      simpa [postUrls, hps] using hv'
  · rcases hm : idxGet st.idx v with _ | i
    · -- miss: append and extend the index
      have hps : urlOfT (dictSetdefault p "scraped_at" (.n now)) = some v := by
        rw [urlOfT_setdefault_sa, hu]
      have hnotmem : v ∉ postUrls st.posts := by
        intro hmem
        have := hcomp v hmem
        rw [hm] at this
        simp at this
      refine ⟨?_, ?_, ?_⟩ <;>
        simp only [ig_merge_step, hu, hm]
      · rw [postUrls_append]
        have hsingle : postUrls [dictSetdefault p "scraped_at" (.n now)] = [v] := by
          simp [postUrls, hps]
        rw [hsingle]
        simp only [List.nodup_append]
        refine ⟨hnd, by simp, ?_⟩
        intro a ha hav
        simp only [List.mem_singleton] at hav
        subst hav
        exact hnotmem ha
      · intro v' i' hgi
        rw [idxGet_set] at hgi
        split at hgi
        · rename_i hvv
          simp only [Option.some.injEq] at hgi
          subst hgi
          refine ⟨by simp, ?_⟩
          rw [getD_append_len, hps, hvv]
        · obtain ⟨hi', hurl'⟩ := hsound v' i' hgi
          refine ⟨by simp; omega, ?_⟩
          rw [getD_append_left _ _ _ hi']
          exact hurl'
      · intro v'' hv''
        rw [postUrls_append] at hv''
        have hsingle : postUrls [dictSetdefault p "scraped_at" (.n now)] = [v] := by
          simp [postUrls, hps]
        rw [hsingle] at hv''
        rcases List.mem_append.mp hv'' with hleft | hright
        · exact idxGet_set_isSome _ _ _ _ (hcomp v'' hleft)
        · simp only [List.mem_singleton] at hright
          subst hright
          rw [idxGet_set]
          simp
    · -- hit: field-merge in place
      obtain ⟨hi, hurl⟩ := hsound v i hm
      have hms : urlOfT (dictSetdefault (dictUpdate (st.posts.getD i []) p)
          "scraped_at" (.n now)) = some v := urlOfT_merged _ _ _ _ hwf hu
      refine ⟨?_, ?_, ?_⟩ <;>
        simp only [ig_merge_step, hu, hm]
      · rw [postUrls_set_eq st.posts i _ hi (by rw [hms, hurl])]
        exact hnd
      · intro v' i' hgi
        obtain ⟨hi', hurl'⟩ := hsound v' i' hgi
        refine ⟨by simpa using hi', ?_⟩
        by_cases hii : i = i'
        · subst hii
          rw [getD_set_self _ _ _ hi, hms]
          rw [hurl] at hurl'
          exact hurl'
        · rw [getD_set_ne _ _ _ _ hii]
          exact hurl'
      · intro v' hv'
        apply hcomp
        rwa [postUrls_set_eq st.posts i _ hi (by rw [hms, hurl])] at hv'

theorem ig_loop_inv (ps : List PyDict) : ∀ (now : Int) (st : IgMergeState),
    (∀ p ∈ ps, (p.map Prod.fst).Nodup) → IgInv st →
    IgInv (ig_merge_loop now st ps) := by
  induction ps with
  | nil => intro now st _ h; exact h
  | cons p rest ih =>
    intro now st hwf h
    simp only [ig_merge_loop]
    exact ih now _ (fun q hq => hwf q (by simp [hq]))
      (ig_step_inv now st p (hwf p (by simp)) h)

/-- C2 counterexample: the Facebook merge violates the uniqueness
invariant when the fresh batch contains two posts with the same new
postUrl — its url index is built once and never extended on append, so
both copies are appended. -/
theorem C2_counterexample :
    (upsert_facebook_merge [] [[("post_url", .s "u")], [("post_url", .s "u")]]).posts
      = [[("post_url", .s "u")], [("post_url", .s "u")]] ∧
    ¬ (postUrls (upsert_facebook_merge []
        [[("post_url", .s "u")], [("post_url", .s "u")]]).posts).Nodup := by
  decide

/-- C2 amended: the Instagram merge preserves the uniqueness invariant
for every existing aggregate with unique (truthy) postUrls and every
fresh batch — including batches containing two posts with the same new
postUrl, because Instagram extends its url index as it appends.  The
Facebook merge does not: a fresh batch with a duplicated new postUrl
yields a duplicated aggregate (see the counterexample).  Fresh posts
are Python dicts, so their key lists are duplicate-free. -/
theorem C2_amended_instagram_uniqueness (now : Int)
    (existing posts : List PyDict)
    (hex : (postUrls existing).Nodup)
    (hwf : ∀ p ∈ posts, (p.map Prod.fst).Nodup) :
    (postUrls (upsert_instagram_merge now existing posts).posts).Nodup := by
  have hinv : IgInv
      { posts := existing, idx := buildIdxT 0 [] existing,
        added := 0, updated := 0 } := by
    refine ⟨hex, ?_, ?_⟩
    · apply buildIdxT_sound existing 0 [] existing
      · intro v i h
        simp [idxGet] at h
      · intro j hj
        exact ⟨by simpa using hj, by simp⟩
    · intro v hv
      obtain ⟨p, hp, hpv⟩ := List.mem_filterMap.mp hv
      exact buildIdxT_covers existing 0 [] p hp v hpv
  have h := ig_loop_inv posts now _ hwf hinv
  simpa [upsert_instagram_merge] using h.1

theorem C2_witness :
    (postUrls (upsert_instagram_merge 7 [[("post_url", .s "u")]]
        [[("post_url", .s "w")], [("post_url", .s "w")],
         [("post_url", .s "u"), ("cap", .s "x")]]).posts).Nodup :=
  C2_amended_instagram_uniqueness 7 [[("post_url", .s "u")]]
    [[("post_url", .s "w")], [("post_url", .s "w")],
     [("post_url", .s "u"), ("cap", .s "x")]]
    (by decide) (by decide)

/-! ### C5: frontier discovery termination -/

theorem leadEq_subset : ∀ (pat l : List Char), leadEq pat l = true →
    ∀ c ∈ pat, c ∈ l := by
  intro pat
  induction pat with
  | nil => intro l _ c hc; simp at hc
  | cons a as ih =>
    intro l h c hc
    cases l with
    | nil => simp [leadEq] at h
    | cons b bs =>
      simp only [leadEq, Bool.and_eq_true, decide_eq_true_eq] at h
      rcases List.mem_cons.mp hc with rfl | hmem
      · simp [h.1]
      · exact List.mem_cons_of_mem b (ih bs h.2 c hmem)

theorem hasSub_subset : ∀ (l pat : List Char), hasSubList pat l = true →
    ∀ c ∈ pat, c ∈ l := by
  intro l
  induction l with
  | nil =>
    intro pat h c hc
    simp only [hasSubList] at h
    cases pat with
    | nil => simp at hc
    | cons a as => simp [leadEq] at h
  | cons b bs ih =>
    intro pat h c hc
    simp only [hasSubList, Bool.or_eq_true] at h
    rcases h with h | h
    · exact leadEq_subset pat (b :: bs) h c hc
    · exact List.mem_cons_of_mem b (ih pat h c hc)

theorem leadEq_append (pat : List Char) : ∀ (l l' : List Char),
    leadEq pat l = true → leadEq pat (l ++ l') = true := by
  induction pat with
  | nil => intro l l' _; rfl
  | cons a as ih =>
    intro l l' h
    cases l with
    | nil => simp [leadEq] at h
    | cons b bs =>
      simp only [leadEq, Bool.and_eq_true] at h
      simp only [List.cons_append, leadEq, Bool.and_eq_true]
      exact ⟨h.1, ih bs l' h.2⟩

theorem hasSub_append_left (pat : List Char) : ∀ (l l' : List Char),
    hasSubList pat l = true → hasSubList pat (l ++ l') = true := by
  intro l
  induction l with
  | nil =>
    intro l' h
    simp only [hasSubList] at h
    cases pat with
    | nil =>
      cases l' with
      | nil => simpa using h
      | cons x xs => simp [hasSubList, leadEq]
    | cons a as => simp [leadEq] at h
  | cons b bs ih =>
    intro l' h
    simp only [hasSubList, Bool.or_eq_true] at h
    simp only [List.cons_append, hasSubList, Bool.or_eq_true]
    rcases h with h | h
    · exact Or.inl (leadEq_append pat (b :: bs) l' h)
    · exact Or.inr (ih l' h)

theorem takeWhile_eq_self_of_all (p : Char → Bool) : ∀ (l : List Char),
    (∀ c ∈ l, p c = true) → l.takeWhile p = l := by
  intro l
  induction l with
  | nil => intro _; rfl
  | cons a t ih =>
    intro h
    rw [List.takeWhile_cons, if_pos (h a (by simp))]
    rw [ih (fun c hc => h c (by simp [hc]))]

theorem dropWhile_eq_self_of_all (p : Char → Bool) (l : List Char)
    (h : ∀ c ∈ l, p c = false) : l.dropWhile p = l := by
  cases l with
  | nil => rfl
  | cons a t =>
    rw [List.dropWhile_cons, if_neg (by simp [h a (by simp)])]

theorem stripChars_id (l : List Char) (h : ∀ c ∈ l, pyIsSpace c = false) :
    stripChars l = l := by
  unfold stripChars
  rw [dropWhile_eq_self_of_all pyIsSpace l h]
  rw [dropWhile_eq_self_of_all pyIsSpace l.reverse
    (fun c hc => h c (List.mem_reverse.mp hc))]
  exact List.reverse_reverse l

theorem clink_data (t : Nat) :
    (clink t).data = "p/posts/".data ++ List.replicate t 'a' := rfl

theorem clink_chars (t : Nat) (c : Char) (hc : c ∈ (clink t).data) :
    c ∈ "p/posts/".data ∨ c = 'a' := by
  rw [clink_data] at hc
  rcases List.mem_append.mp hc with h | h
  · exact Or.inl h
  · exact Or.inr (List.eq_of_mem_replicate h)

theorem clink_inj (a b : Nat) (h : clink a = clink b) : a = b := by
  have hd := congrArg String.data h
  rw [clink_data, clink_data] at hd
  have := List.append_cancel_left hd
  have hlen := congrArg List.length this
  simpa using hlen

/-- Normalization is the identity on the c5 links. -/
theorem c5_normalize (t : Nat) : _normalize_fb_href (clink t) = some (clink t) := by
  have hne : clink t ≠ "" := by
    intro h
    have := congrArg String.data h
    rw [clink_data] at this
    simp at this
  have hbase_nospace : ∀ c ∈ "p/posts/".data, pyIsSpace c = false := by
    intro c hc
    have hall : "p/posts/".data.all (fun c => !pyIsSpace c) = true := by decide
    simpa using List.all_eq_true.mp hall c hc
  have hnospace : ∀ c ∈ (clink t).data, pyIsSpace c = false := by
    intro c hc
    rcases clink_chars t c hc with h | rfl
    · exact hbase_nospace c h
    · rfl
  have hstrip : pyStrip (clink t) = clink t := by
    show String.mk (stripChars (clink t).data) = clink t
    rw [stripChars_id _ hnospace]
  have hlead : strLeads (clink t) "/" = false := by
    show leadEq "/".data (clink t).data = false
    rw [clink_data]
    rfl
  have hlower : pyLower (clink t) = clink t := by
    show String.mk ((clink t).data.map Char.toLower) = clink t
    rw [clink_data, List.map_append, List.map_replicate]
    rfl
  have hnophoto : strHasSub (clink t) "/photo.php" = false := by
    rw [Bool.eq_false_iff]
    intro h
    have := hasSub_subset (clink t).data "/photo.php".data h 'h' (by decide)
    rcases clink_chars t 'h' this with hmem | habs
    · revert hmem; decide
    · exact absurd habs (by decide)
  have hnoq : ∀ c ∈ (clink t).data, (decide (c ≠ '?')) = true := by
    intro c hc
    rcases clink_chars t c hc with h | rfl
    · have hall : "p/posts/".data.all (fun c => decide (c ≠ '?')) = true := by
        decide
      exact List.all_eq_true.mp hall c h
    · rfl
  have hnoh : ∀ c ∈ (clink t).data, (decide (c ≠ '#')) = true := by
    intro c hc
    rcases clink_chars t c hc with h | rfl
    · have hall : "p/posts/".data.all (fun c => decide (c ≠ '#')) = true := by
        decide
      exact List.all_eq_true.mp hall c h
    · rfl
  unfold _normalize_fb_href
  rw [if_neg hne, hstrip]
  simp only [hlead, Bool.false_eq_true, if_false, hlower, hnophoto]
  show some (cutHash (cutQuery (clink t))) = some (clink t)
  unfold cutQuery cutHash
  rw [takeWhile_eq_self_of_all _ _ hnoq]
  show some (String.mk ((clink t).data.takeWhile (fun c => c ≠ '#'))) = _
  rw [takeWhile_eq_self_of_all _ _ hnoh]

theorem c5_lower (t : Nat) : pyLower (clink t) = clink t := by
  show String.mk ((clink t).data.map Char.toLower) = clink t
  rw [clink_data, List.map_append, List.map_replicate]
  rfl

theorem c5_noreel (t : Nat) : strHasSub (clink t) "/reel/" = false := by
  rw [Bool.eq_false_iff]
  intro h
  have := hasSub_subset (clink t).data "/reel/".data h 'r' (by decide)
  rcases clink_chars t 'r' this with hmem | habs
  · revert hmem; decide
  · exact absurd habs (by decide)

theorem c5_posts_pattern (t : Nat) : strHasSub (clink t) "/posts/" = true := by
  show hasSubList "/posts/".data (clink t).data = true
  rw [clink_data]
  apply hasSub_append_left
  decide

theorem c5_notmem (t : Nat) : clink t ∉ (List.range t).map clink := by
  intro h
  obtain ⟨j, hj, hje⟩ := List.mem_map.mp h
  have hj' := clink_inj j t hje
  rw [hj'] at hj
  exact absurd (List.mem_range.mp hj) (lt_irrefl t)

theorem c5_classify (t : Nat) :
    classifyAnchor "x" ((List.range t).map clink, []) (clink t) =
      ((List.range (t + 1)).map clink, []) := by
  unfold classifyAnchor
  simp only [c5_normalize]
  rw [c5_lower]
  simp only [c5_noreel, Bool.false_eq_true, if_false]
  have hany : fbPatterns.any (fun p => strHasSub (clink t) p) = true :=
    List.any_eq_true.mpr ⟨"/posts/", by decide, c5_posts_pattern t⟩
  simp only [hany, Bool.true_or, if_true]
  unfold addToSet
  rw [if_neg (c5_notmem t)]
  rw [List.range_succ, List.map_append]
  rfl

theorem c5_round (t : Nat) :
    scrollRound c5Feed "x" t (c5State t) = c5State (t + 1) := by
  unfold scrollRound
  simp only [c5Feed, c5State, List.foldl_cons, List.foldl_nil]
  rw [c5_classify t]
  have hne1 : ¬ (t + 1 = t) := by omega
  simp only [if_neg hne1]
  have hlen : ((List.range (t + 1)).map clink).length + ([] : List String).length
      = t + 1 := by simp
  simp only [hlen]
  rw [if_neg hne1]

theorem c5_init : initSState c5Feed = c5State 0 := rfl

theorem c5_loop_none : ∀ (fuel t : Nat),
    scrollLoop c5Feed "x" 50 3 none fuel t (c5State t) = none := by
  intro fuel
  induction fuel with
  | zero => intro t; rfl
  | succ f ih =>
    intro t
    simp only [scrollLoop]
    rw [if_neg (show ¬ ¬ (c5State t).attempts < 50 by simp [c5State])]
    rw [c5_round t]
    rw [if_neg (show ¬ stopAfterHit none (c5State (t + 1)).last_count = true by
      simp [stopAfterHit])]
    rw [if_neg (show ¬ ((c5State (t + 1)).no_height_increase ≥ 3 ∧
        (c5State (t + 1)).attempts > 0) by simp [c5State])]
    exact ih (t + 1)

/-- C5 counterexample: no fixed constant bounds the number of rounds of
every run.  On a feed whose height grows and which presents one fresh
post link every round, with no maxPosts cap, the loop's stale-round
counter is reset every round and the loop never exits: the
max_attempts budget bounds only consecutive stale rounds, not total
rounds. -/
theorem C5_counterexample : ¬ scrollBoundedByConstant := by
  rintro ⟨B, h⟩
  have h2 := h c5Feed "x" none
  unfold scroll_and_extract at h2
  rw [c5_init, c5_loop_none B 0] at h2
  simp at h2

theorem addToSet_len_ge (s : List String) (x : String) :
    s.length ≤ (addToSet s x).length := by
  unfold addToSet
  split
  · exact le_refl _
  · simp

theorem size_add_right (st : List String × List String) (x : String) :
    st.1.length + st.2.length ≤ st.1.length + (addToSet st.2 x).length := by
  have := addToSet_len_ge st.2 x
  omega

theorem size_add_left (st : List String × List String) (x : String) :
    st.1.length + st.2.length ≤ (addToSet st.1 x).length + st.2.length := by
  have := addToSet_len_ge st.1 x
  omega

theorem classifyAnchor_size (profile : String) (st : List String × List String)
    (href : String) :
    st.1.length + st.2.length ≤
      (classifyAnchor profile st href).1.length +
        (classifyAnchor profile st href).2.length := by
  unfold classifyAnchor
  rcases _normalize_fb_href href with _ | norm
  · exact le_refl _
  · dsimp only
    split_ifs <;>
      first
        | exact size_add_right st _
        | exact size_add_left st _
        | exact le_refl _

theorem classifyAttrMatch_size (profile : String) (st : List String × List String)
    (m : List Char) :
    st.1.length + st.2.length ≤
      (classifyAttrMatch profile st m).1.length +
        (classifyAttrMatch profile st m).2.length := by
  unfold classifyAttrMatch
  dsimp only
  split_ifs <;>
    first
      | exact size_add_right st _
      | exact size_add_left st _
      | exact le_refl _

theorem foldl_size {α : Type}
    (f : (List String × List String) → α → (List String × List String))
    (hf : ∀ st x, st.1.length + st.2.length ≤ (f st x).1.length + (f st x).2.length) :
    ∀ (l : List α) (st : List String × List String),
    st.1.length + st.2.length ≤ (l.foldl f st).1.length + (l.foldl f st).2.length := by
  intro l
  induction l with
  | nil => intro st; simp
  | cons x xs ih =>
    intro st
    simp only [List.foldl_cons]
    exact le_trans (hf st x) (ih (f st x))

theorem processAttrText_size (profile : String) (st : List String × List String)
    (txt : String) :
    st.1.length + st.2.length ≤
      (processAttrText profile st txt).1.length +
        (processAttrText profile st txt).2.length :=
  foldl_size (classifyAttrMatch profile) (classifyAttrMatch_size profile) _ st

theorem scrollRound_count (feed : Feed) (profile : String) (t : Nat) (s : SState) :
    (scrollRound feed profile t s).last_count =
      (scrollRound feed profile t s).post_links.length +
        (scrollRound feed profile t s).reels_links.length := rfl

theorem scrollRound_attempts (feed : Feed) (profile : String) (t : Nat)
    (s : SState) :
    (scrollRound feed profile t s).attempts =
      if (scrollRound feed profile t s).last_count = s.last_count then
        s.attempts + 1
      else 0 := rfl

theorem scrollRound_mono (feed : Feed) (profile : String) (t : Nat) (s : SState) :
    s.post_links.length + s.reels_links.length ≤
      (scrollRound feed profile t s).last_count := by
  unfold scrollRound
  dsimp only
  exact le_trans
    (foldl_size (classifyAnchor profile) (classifyAnchor_size profile)
      (feed.anchors t) (s.post_links, s.reels_links))
    (foldl_size (processAttrText profile) (processAttrText_size profile)
      (feed.attrs t) _)

theorem scrollLoop_terminates (feed : Feed) (profile : String) (m : Nat)
    (hm : 1 ≤ m) : ∀ (fuel t : Nat) (s : SState),
    s.last_count = s.post_links.length + s.reels_links.length →
    s.attempts ≤ 50 →
    51 * (m - s.last_count) + (50 - s.attempts) < fuel →
    (scrollLoop feed profile 50 3 (some m) fuel t s).isSome = true := by
  intro fuel
  induction fuel using Nat.strong_induction_on with
  | _ fuel ih =>
    intro t s hcount hatt hmeas
    cases fuel with
    | zero => exact absurd hmeas (by omega)
    | succ f =>
      simp only [scrollLoop]
      by_cases hent : s.attempts < 50
      case neg =>
        rw [if_pos hent]
        rfl
      case pos =>
        rw [if_neg (by simpa using hent)]
        by_cases hstop :
            stopAfterHit (some m) (scrollRound feed profile t s).last_count = true
        · rw [if_pos hstop]
          rfl
        · rw [if_neg hstop]
          by_cases hnhi : (scrollRound feed profile t s).no_height_increase ≥ 3 ∧
              (scrollRound feed profile t s).attempts > 0
          · rw [if_pos hnhi]
            rfl
          · rw [if_neg hnhi]
            have hlt : (scrollRound feed profile t s).last_count < m := by
              by_contra hge
              apply hstop
              simp only [stopAfterHit, Bool.and_eq_true, decide_eq_true_eq]
              omega
            have hmono := scrollRound_mono feed profile t s
            have hatt' := scrollRound_attempts feed profile t s
            apply ih f (Nat.lt_succ_self f) (t + 1)
            · exact scrollRound_count feed profile t s
            · rw [hatt']
              split
              · omega
              · omega
            · rw [hatt']
              by_cases hstale :
                  (scrollRound feed profile t s).last_count = s.last_count
              · rw [if_pos hstale, hstale]
                omega
              · rw [if_neg hstale]
                have hgt : s.last_count < (scrollRound feed profile t s).last_count := by
                  omega
                omega

/-- C5 amended: the three exit conditions are as in the source (the
maxPosts cap checked every round; height stale for at least 3 rounds
jointly with a currently-positive stale-round counter; and the
max_attempts budget of 50, which bounds only consecutive rounds with no
new links — it is reset by every productive round).  Consequently the
total number of rounds is NOT bounded by a fixed constant over all
feeds (see the counterexample); but whenever a positive maxPosts cap m
is supplied, every run terminates within 51*m + 51 rounds, regardless
of the feed. -/
theorem C5_amended_bounded_with_cap (feed : Feed) (profile : String) (m : Nat)
    (hm : 1 ≤ m) (fuel : Nat) (hfuel : 51 * m + 51 ≤ fuel) :
    (scroll_and_extract feed profile (some m) fuel).isSome = true := by
  have h := scrollLoop_terminates feed profile m hm fuel 0 (initSState feed)
    rfl (by simp [initSState]) (by simp [initSState]; omega)
  unfold scroll_and_extract
  rcases hr : scrollLoop feed profile 50 3 (some m) fuel 0 (initSState feed)
    with _ | s
  · rw [hr] at h
    simp at h
  · simp

theorem C5_witness :
    (scroll_and_extract c5ConstFeed "p" (some 1) 102).isSome = true :=
  C5_amended_bounded_with_cap c5ConstFeed "p" 1 (by decide) 102 (by decide)

end Palette
